import Mathlib

/-!
# Verification of the AICrawlerPOC rule engine

A shallow embedding of the repository's rule-evaluation core
(`src/rules.py`), its suppression merge CLI (`mark_false_positives.py`)
and the policy-loading layer, with theorems settling the frozen claims.

Conventions of the embedding:

* Python `str` values are `List Char` (`Str` below); Python slicing
  `text[s:e]` is `pySlice`.
* Python's `re` module is modelled by a small regex AST (`Regex`) with an
  executable backtracking matcher.  `re.compile` of a pattern string is
  modelled by `PatternSrc`: a source string is either empty (falsy, skipped
  by `_compile_patterns` before compiling), invalid (raises `re.error`,
  dropped), or compiles to a `Regex`.  The `re.IGNORECASE` flag, baked into
  the compiled pattern by the source, is threaded to the matcher as the
  `ci : Bool` argument instead.
* `re.search(re.escape(phrase), text, flags)`, used by the source for all
  literal phrase tests, is exactly a (case-configurable) substring test and
  is modelled directly as `occursIn`.
* The matcher is written with an explicit fuel argument so that it is
  structurally recursive and evaluates by kernel reduction.  Every
  recursive call of `matchLensF` strictly decreases
  `s.length + r.size`, so fuel `s.length + r.size + 1` never runs out;
  every iteration of `finditerAux` consumes at least one character of the
  suffix, so fuel `s.length + 1` never runs out.
-/

/-- Python strings, indexed by code point exactly as Python indexes `str`. -/
abbrev Str := List Char

/-- Python slicing `text[s:e]` for `0 ≤ s ≤ e` (clamped to the text). -/
def pySlice (t : Str) (s e : Nat) : Str := (t.drop s).take (e - s)

/-- Character comparison under the configured case sensitivity
(`re.IGNORECASE` is modelled by comparing lower-cased characters). -/
def chEq (ci : Bool) (a b : Char) : Bool :=
  if ci then a.toLower = b.toLower else a = b

/-- `needle` starts `hay` under the configured case sensitivity. -/
def startsHere (ci : Bool) : Str → Str → Bool
  | [], _ => true
  | _ :: _, [] => false
  | c :: cs, d :: ds => chEq ci c d && startsHere ci cs ds

/-- `re.search(re.escape(needle), hay, flags) is not None`: the literal
`needle` occurs somewhere in `hay` (case-configurable substring test). -/
def occursIn (ci : Bool) (needle : Str) : Str → Bool
  | [] => startsHere ci needle []
  | d :: ds => startsHere ci needle (d :: ds) || occursIn ci needle ds

/-- Abstract syntax of the regexes a policy pattern string compiles to. -/
inductive Regex where
  | eps : Regex
  | chr (c : Char) : Regex
  | seq (r1 r2 : Regex) : Regex
  | alt (r1 r2 : Regex) : Regex
  | star (r : Regex) : Regex
deriving DecidableEq

/-- Structural size of a regex, used to bound the matcher's fuel. -/
def Regex.size : Regex → Nat
  | .eps => 1
  | .chr _ => 1
  | .seq r1 r2 => r1.size + r2.size + 1
  | .alt r1 r2 => r1.size + r2.size + 1
  | .star r => r.size + 1

/-- The literal regex `re.escape` produces for a phrase. -/
def litRe : Str → Regex
  | [] => .eps
  | c :: cs => .seq (.chr c) (litRe cs)

/-- Candidate lengths of matches of `r` at the start of `s`, in the
backtracking preference order of Python's `re` (alternatives left to
right, `star` greedy).  The head, when the list is nonempty, is the length
Python's match at this position reports.  `fuel` only forces structural
recursion; `matchLens` supplies enough that it never runs out (each call
strictly decreases `s.length + r.size`). -/
def matchLensF (ci : Bool) : Nat → Regex → Str → List Nat
  | 0, _, _ => []
  | fuel + 1, r, s =>
    match r with
    | .eps => [0]
    | .chr c =>
      match s with
      | [] => []
      | a :: _ => if chEq ci a c then [1] else []
    | .alt r1 r2 => matchLensF ci fuel r1 s ++ matchLensF ci fuel r2 s
    | .seq r1 r2 =>
      (matchLensF ci fuel r1 s).flatMap
        (fun n => (matchLensF ci fuel r2 (s.drop n)).map (fun m => n + m))
    | .star r1 =>
      ((matchLensF ci fuel r1 s).filter (fun n => 0 < n && n ≤ s.length)).flatMap
        (fun n => (matchLensF ci fuel (.star r1) (s.drop n)).map (fun m => n + m))
      ++ [0]

/-- Match lengths of `r` at the start of `s` (see `matchLensF`). -/
def matchLens (ci : Bool) (r : Regex) (s : Str) : List Nat :=
  matchLensF ci (s.length + r.size + 1) r s

/-- Leftmost match of `r` in the suffix `s` of the scanned text, scanning
from absolute position `pos`: Python tries each position left to right and
returns the first where a match starts, as `(start, length)`. -/
def firstMatchAux (ci : Bool) (r : Regex) : Str → Nat → Option (Nat × Nat)
  | s, pos =>
    match matchLens ci r s with
    | n :: _ => some (pos, n)
    | [] =>
      match s with
      | [] => none
      | _ :: t => firstMatchAux ci r t (pos + 1)

/-- `pat.search(s)`: text of the leftmost match of `r` in `s`, if any. -/
def searchRe (ci : Bool) (r : Regex) (s : Str) : Option Str :=
  (firstMatchAux ci r s 0).map (fun pn => pySlice s pn.1 (pn.1 + pn.2))

/-- `pat.finditer(s)` working through the suffix starting at absolute
position `pos`: emit the leftmost match, then continue after it (one
position further when the match was empty), exactly as Python's scanner.
The scan stops once the next scan position would pass the end of the
text. -/
def finditerAux (ci : Bool) (r : Regex) : Nat → Str → Nat → List (Nat × Nat)
  | 0, _, _ => []
  | fuel + 1, s, pos =>
    match firstMatchAux ci r s pos with
    | none => []
    | some (p, n) =>
      let skip := (p - pos) + (if n = 0 then 1 else n)
      (p, p + n) ::
        (if skip ≤ s.length then finditerAux ci r fuel (s.drop skip) (pos + skip)
         else [])

/-- `pat.finditer(s)`: the non-overlapping matches of `r` in `s`, left to
right, as `(start, end)` spans. -/
def finditer (ci : Bool) (r : Regex) (s : Str) : List (Nat × Nat) :=
  finditerAux ci r (s.length + 1) s 0

example : finditer true (litRe "ab".toList) "ab cd ab cd".toList = [(0, 2), (6, 8)] := by decide
example : finditer true (.star (.chr 'a')) [] = [(0, 0)] := by decide
example : searchRe true (litRe "cd".toList) " cd x".toList = some "cd".toList := by decide
example : occursIn true "ACME".toList "an acme bank".toList = true := by decide
example : occursIn false "ACME".toList "an acme bank".toList = false := by decide

/-! ## Policy data model

Typed counterparts of the dict fields `run_rules` reads.  Python `or`
defaulting on falsy values is modelled by `pyOrStr` / `pyOrInt` /
`truthyOptList`; a missing dict key is `none`. -/

/-- A pattern string of the policy, as `_compile_patterns` sees it: falsy
(empty string, skipped), failing `re.compile` (dropped by the
`except re.error` arm), or compiling to a regex. -/
inductive PatternSrc where
  | empty : PatternSrc
  | invalid : PatternSrc
  | valid (r : Regex) : PatternSrc
deriving DecidableEq

/-- `_compile_patterns`: skip falsy pattern strings, drop the ones that do
not compile, keep the compiled regexes in order.  (The `re.IGNORECASE`
flag the source bakes into each compiled pattern is passed to the matcher
instead.) -/
def compile_patterns (ps : List PatternSrc) : List Regex :=
  ps.filterMap (fun p =>
    match p with
    | .valid r => some r
    | .empty => none
    | .invalid => none)

/-- Python `x or default` for an optional string value. -/
def pyOrStr (v : Option String) (d : String) : String :=
  match v with
  | none => d
  | some s => if s = "" then d else s

/-- Python `x or default` for an optional integer value (0 is falsy). -/
def pyOrInt (v : Option Int) (d : Int) : Int :=
  match v with
  | none => d
  | some n => if n = 0 then d else n

/-- Python truthiness of an optional list value. -/
def truthyOptList {α : Type} : Option (List α) → Bool
  | none => false
  | some l => !l.isEmpty

/-- `_window_around`: substring of total width `window_chars` around
`center`, extending `window_chars / 2` to the left (clamped at 0) and
filling the width to the right, clamped to the text. -/
def window_around (text : Str) (center : Nat) (window_chars : Int) : Str :=
  if text.isEmpty || window_chars ≤ 0 then []
  else
    let half := (window_chars / 2).toNat
    let s := center - half
    let e := min text.length (s + window_chars.toNat)
    pySlice text s e

/-- `_snippet_around`: up to `snippet_chars` characters around the match
span `[start, endp)`, with ellipsis markers when truncated on either
side.  The arithmetic follows the source line by line (including its
second, redundant clamp of `e`). -/
def snippet_around (text : Str) (start endp : Nat) (snippet_chars : Int) : Str :=
  if text.isEmpty || snippet_chars ≤ 0 then []
  else
    let half : Int := snippet_chars / 2
    let s : Int := max 0 ((start : Int) - half)
    let e1 : Int := min (text.length : Int) ((endp : Int) + (snippet_chars - ((endp : Int) - s)))
    let e : Int :=
      if e1 - s < (text.length : Int) then min (text.length : Int) (s + snippet_chars) else e1
    let out := pySlice text s.toNat e.toNat
    (if 0 < s then ['…'] else []) ++ out ++ (if e < (text.length : Int) then ['…'] else [])

/-- A finding, as `src/rules.py` constructs it. -/
structure Finding where
  rule_id : String
  taxonomy : String
  severity : String
  match_text : Str
  snippet : Str
  recommendation : String
deriving DecidableEq

/-- A suppression entry of the policy.  `none` models a missing (or null)
dict key; `reason` is documentation only. -/
structure Suppression where
  rule_id : Option String := none
  url_contains : Option Str := none
  snippet_contains : Option Str := none
  match_contains : Option Str := none
  reason : Option String := none
deriving DecidableEq

/-- The `proximity` sub-dict of a rule.  (A falsy or non-dict `proximity`
value is skipped by the source; such rules are modelled with
`proximity = none`.) -/
structure ProximityCfg where
  anchor_patterns : List PatternSrc := []
  near_patterns : List PatternSrc := []
  window_chars : Option Int := none
deriving DecidableEq

/-- A rule entry of the policy; every field is optional in the dict. -/
structure Rule where
  id : Option String := none
  taxonomy : Option String := none
  severity : Option String := none
  recommendation : Option String := none
  patterns : Option (List PatternSrc) := none
  proximity : Option ProximityCfg := none
  trigger_patterns : Option (List PatternSrc) := none
  required_qualifiers_any : Option (List String) := none
deriving DecidableEq

/-- The scan configuration after `_get_scan_config` defaulting (plus
`require_upgrade_context`, which `run_rules` reads with default `True`).
The defaults are justified against the untyped document in the policy
loading section below. -/
structure ScanConfig where
  snippet_chars : Int := 260
  qualifier_window_chars : Int := 400
  proximity_window_chars : Int := 250
  case_insensitive : Bool := true
  upgrade_context_window_chars : Int := 0
  require_upgrade_context : Bool := true
deriving DecidableEq

/-- The policy document, restricted to the fields the engine reads. -/
structure Policy where
  company_name_variants : List Str := []
  qualifiers : List (String × List Str) := []
  scan : ScanConfig := {}
  rules : List Rule := []
  suppressions : List Suppression := []
deriving DecidableEq

/-! ## The rule engine (`src/rules.py`) -/

/-- `_build_qualifier_phrases`: drop falsy phrases from each group. -/
def build_qualifier_phrases (qs : List (String × List Str)) : List (String × List Str) :=
  qs.map (fun kv => (kv.1, kv.2.filter (fun p => !p.isEmpty)))

/-- `_is_upgrade_related`: the page mentions a company-name variant (an
empty text is never related; an empty variant list means no constraint;
falsy variant phrases are skipped). -/
def is_upgrade_related (ci : Bool) (text : Str) (variants : List Str) : Bool :=
  if text.isEmpty then false
  else if variants.isEmpty then true
  else variants.any (fun phrase => !phrase.isEmpty && occursIn ci phrase text)

/-- `_has_upgrade_near_position`: a variant appears within the
`window_chars` window around `center` (no constraint when the text is
empty or the window is not positive). -/
def has_upgrade_near_position (ci : Bool) (text : Str) (center : Nat) (window_chars : Int)
    (variants : List Str) : Bool :=
  if text.isEmpty || window_chars ≤ 0 then true
  else is_upgrade_related ci (window_around text center window_chars) variants

/-- `qualifier_phrases.get(group_name) or []`. -/
def lookupGroup (qp : List (String × List Str)) (g : String) : List Str :=
  (qp.lookup g).getD []

/-- `_has_qualifier_in_text`: some phrase of some named group occurs in
the text. -/
def has_qualifier_in_text (ci : Bool) (text : Str) (groups : List String)
    (qp : List (String × List Str)) : Bool :=
  if text.isEmpty || groups.isEmpty then false
  else groups.any (fun g =>
    (lookupGroup qp g).any (fun phrase => !phrase.isEmpty && occursIn ci phrase text))

/-- `_suppression_matches`: the suppression's `rule_id` equals the
finding's, and each present (non-falsy) `*_contains` field occurs in the
page URL, the finding's snippet and the finding's match text
respectively. -/
def suppression_matches (ci : Bool) (f : Finding) (page_url : Str) (s : Suppression) : Bool :=
  if s.rule_id ≠ some f.rule_id then false
  else
    let url_contains := s.url_contains.getD []
    if url_contains ≠ [] && !occursIn ci url_contains page_url then false
    else
      let snippet_contains := s.snippet_contains.getD []
      if snippet_contains ≠ [] && !occursIn ci snippet_contains f.snippet then false
      else
        let match_contains := s.match_contains.getD []
        if match_contains ≠ [] && !occursIn ci match_contains f.match_text then false
        else true

/-- `_apply_suppressions`: keep the findings no suppression matches (the
input list itself when there are no suppressions). -/
def apply_suppressions (ci : Bool) (findings : List Finding) (suppressions : List Suppression)
    (page_url : Str) : List Finding :=
  if suppressions.isEmpty then findings
  else findings.filter (fun f => !suppressions.any (suppression_matches ci f page_url))

/-- A candidate finding: what one call of the source's `_add_finding`
closure receives (the finding's fields plus the match span). -/
structure Cand where
  finding : Finding
  mstart : Nat
  mend : Nat
deriving DecidableEq

/-- The gate inside `_add_finding`: when `require_upgrade` holds and
`upgrade_near_window > 0`, a candidate whose match midpoint has no nearby
variant mention is discarded; otherwise the finding is appended. -/
def add_finding_gate (ci : Bool) (text : Str) (variants : List Str) (require_upgrade : Bool)
    (upgrade_near_window : Int) (c : Cand) : Option Finding :=
  if require_upgrade && 0 < upgrade_near_window then
    if has_upgrade_near_position ci text ((c.mstart + c.mend) / 2) upgrade_near_window variants
    then some c.finding else none
  else some c.finding

/-- `rule.get("id") or "UNKNOWN"`. -/
def Rule.ruleId (r : Rule) : String := pyOrStr r.id "UNKNOWN"

/-- `rule.get("taxonomy") or ""`. -/
def Rule.tax (r : Rule) : String := pyOrStr r.taxonomy ""

/-- `rule.get("severity") or "MEDIUM"`. -/
def Rule.sev (r : Rule) : String := pyOrStr r.severity "MEDIUM"

/-- `rule.get("recommendation") or ""`. -/
def Rule.reco (r : Rule) : String := pyOrStr r.recommendation ""

/-- The candidate one `_add_finding` call of rule `r` receives. -/
def mkCand (r : Rule) (match_text snippet : Str) (mstart mend : Nat) : Cand :=
  ⟨⟨r.ruleId, r.tax, r.sev, match_text, snippet, r.reco⟩, mstart, mend⟩

/-- The pattern-rule section of `run_rules`: every match of every compiled
pattern, negated when a required qualifier phrase occurs in the window
around the match midpoint. -/
def pattern_cands (ci : Bool) (text : Str) (qp : List (String × List Str))
    (snippet_chars qualifier_window : Int) (r : Rule) : List Cand :=
  if truthyOptList r.patterns then
    (compile_patterns (r.patterns.getD [])).flatMap (fun pat =>
      (finditer ci pat text).filterMap (fun m =>
        let match_text := pySlice text m.1 m.2
        let snippet := snippet_around text m.1 m.2 snippet_chars
        if truthyOptList r.required_qualifiers_any then
          let window_text := window_around text ((m.1 + m.2) / 2) qualifier_window
          if has_qualifier_in_text ci window_text (r.required_qualifiers_any.getD []) qp then none
          else some (mkCand r match_text snippet m.1 m.2)
        else some (mkCand r match_text snippet m.1 m.2)))
  else []

/-- The inner near-pattern loop of a proximity rule: the first match text
of the first near pattern that matches the window. -/
def first_near_text (ci : Bool) (nPats : List Regex) (window_text : Str) : Option Str :=
  match nPats with
  | [] => none
  | p :: rest =>
    match searchRe ci p window_text with
    | some t => some t
    | none => first_near_text ci rest window_text

/-- The anchor-match loop of a proximity rule, with the source's
`for … else: continue` / `break` control flow: scan the anchor matches in
order and stop at the first whose window contains a near-pattern match,
returning that anchor match and the near text. -/
def prox_scan_anchors (ci : Bool) (text : Str) (window_chars : Int) (nPats : List Regex) :
    List (Nat × Nat) → Option ((Nat × Nat) × Str)
  | [] => none
  | m :: rest =>
    let window_text := window_around text ((m.1 + m.2) / 2) window_chars
    match first_near_text ci nPats window_text with
    | some t => some (m, t)
    | none => prox_scan_anchors ci text window_chars nPats rest

/-- The proximity-rule section of `run_rules`: for each anchor pattern, at
most one candidate, at the first anchor match whose window contains a
near-pattern match (the trailing `break` leaves the anchor-match loop). -/
def proximity_cands (ci : Bool) (text : Str) (snippet_chars proximity_window : Int)
    (r : Rule) : List Cand :=
  match r.proximity with
  | none => []
  | some prox =>
    let a_compiled := compile_patterns prox.anchor_patterns
    let n_compiled := compile_patterns prox.near_patterns
    let window_chars := pyOrInt prox.window_chars proximity_window
    a_compiled.flatMap (fun a_pat =>
      match prox_scan_anchors ci text window_chars n_compiled (finditer ci a_pat text) with
      | none => []
      | some (m, near_text) =>
        [mkCand r (pySlice text m.1 m.2 ++ " ... ".toList ++ near_text)
            (snippet_around text m.1 m.2 snippet_chars) m.1 m.2])

/-- The trigger-pattern section of `run_rules`: requires both
`trigger_patterns` and `required_qualifiers_any` to be truthy; qualifier
presence negates, otherwise a candidate per match. -/
def trigger_cands (ci : Bool) (text : Str) (qp : List (String × List Str))
    (snippet_chars qualifier_window : Int) (r : Rule) : List Cand :=
  if truthyOptList r.trigger_patterns && truthyOptList r.required_qualifiers_any then
    (compile_patterns (r.trigger_patterns.getD [])).flatMap (fun t_pat =>
      (finditer ci t_pat text).filterMap (fun m =>
        let window_text := window_around text ((m.1 + m.2) / 2) qualifier_window
        if has_qualifier_in_text ci window_text (r.required_qualifiers_any.getD []) qp then none
        else some (mkCand r (pySlice text m.1 m.2) (snippet_around text m.1 m.2 snippet_chars)
          m.1 m.2)))
  else []

/-- All `_add_finding` calls one rule makes, in order: its pattern,
proximity and trigger sections. -/
def rule_cands (ci : Bool) (text : Str) (qp : List (String × List Str))
    (snippet_chars qualifier_window proximity_window : Int) (r : Rule) : List Cand :=
  pattern_cands ci text qp snippet_chars qualifier_window r
    ++ proximity_cands ci text snippet_chars proximity_window r
    ++ trigger_cands ci text qp snippet_chars qualifier_window r

/-- All `_add_finding` calls `run_rules` makes for this text and policy
(the candidate stream before the per-match upgrade gate). -/
def run_rules_cands (text : Str) (policy : Policy) : List Cand :=
  let ci := policy.scan.case_insensitive
  let qp := build_qualifier_phrases policy.qualifiers
  policy.rules.flatMap
    (rule_cands ci text qp policy.scan.snippet_chars policy.scan.qualifier_window_chars
      policy.scan.proximity_window_chars)

/-- `run_rules`: the global upgrade-context gate, the rules loop (as the
candidate stream filtered by the `_add_finding` gate — the gate's verdict
never changes the loops' control flow), then suppression filtering. -/
def run_rules (text : Str) (policy : Policy) (page_url : Str) : List Finding :=
  let ci := policy.scan.case_insensitive
  if policy.scan.require_upgrade_context && !is_upgrade_related ci text policy.company_name_variants
  then []
  else
    let findings := (run_rules_cands text policy).filterMap
      (add_finding_gate ci text policy.company_name_variants policy.scan.require_upgrade_context
        policy.scan.upgrade_context_window_chars)
    apply_suppressions ci findings policy.suppressions page_url

/-! ## Suppression merging (`mark_false_positives.py`)

`append_suppressions_to_policy` computes the set of existing suppression
keys, drops every new suppression whose key is already seen (also keys
added earlier in the same batch), and appends the remainder.  Only the
resulting suppression list is modelled; the YAML text splicing preserves
exactly this list. -/

/-- The dedup key: `(s.get("rule_id"), s.get("snippet_contains"),
s.get("match_contains"), s.get("url_contains"))`.  A missing key gives
Python `None`, modelled as `none` — distinct from an explicit empty
string. -/
def supp_key (s : Suppression) : Option String × Option Str × Option Str × Option Str :=
  (s.rule_id, s.snippet_contains, s.match_contains, s.url_contains)

/-- The `for s in new_suppressions` loop: skip a suppression whose key is
in `seen`, otherwise keep it and add its key to `seen`. -/
def dedup_new (seen : List (Option String × Option Str × Option Str × Option Str)) :
    List Suppression → List Suppression
  | [] => []
  | s :: rest =>
    if supp_key s ∈ seen then dedup_new seen rest
    else s :: dedup_new (supp_key s :: seen) rest

/-- `append_suppressions_to_policy`, as the transformation of the policy's
suppression list: existing entries followed by the deduplicated new
ones. -/
def merge_suppressions (existing new_suppressions : List Suppression) : List Suppression :=
  existing ++ dedup_new (existing.map supp_key) new_suppressions

/-! ## Policy loading (`_load_policy` / `_get_scan_config`)

The YAML parse result is an untyped value; `none` models an empty or
missing document (`yaml.safe_load` returns `None`).  Python attribute
access `.get` on a non-dict raises `AttributeError`; that failure is the
`Except.error` case. -/

/-- An untyped YAML value, as `yaml.safe_load` returns it. -/
inductive Yaml where
  | nullv : Yaml
  | boolv (b : Bool) : Yaml
  | intv (n : Int) : Yaml
  | strv (s : String) : Yaml
  | listv (xs : List Yaml) : Yaml
  | mapv (kvs : List (String × Yaml)) : Yaml

/-- Python truthiness of a YAML value. -/
def Yaml.truthy : Yaml → Bool
  | .nullv => false
  | .boolv b => b
  | .intv n => n != 0
  | .strv s => s != ""
  | .listv xs => !xs.isEmpty
  | .mapv kvs => !kvs.isEmpty

/-- Whether a YAML value is a mapping. -/
def Yaml.isMap : Yaml → Bool
  | .mapv _ => true
  | _ => false

/-- `_load_policy`: `yaml.safe_load(f) or {}`. -/
def load_policy (doc : Option Yaml) : Yaml :=
  match doc with
  | none => .mapv []
  | some v => if v.truthy then v else .mapv []

/-- `v.get(k)` — `None` for a missing key, `AttributeError` when `v` is
not a dict. -/
def yGet (v : Yaml) (k : String) : Except String Yaml :=
  match v with
  | .mapv kvs => .ok ((kvs.lookup k).getD .nullv)
  | _ => .error "AttributeError"

/-- `v.get(k, d)` — the default only for a missing key (an explicit null
value stays null), `AttributeError` when `v` is not a dict. -/
def yGetD (v : Yaml) (k : String) (d : Yaml) : Except String Yaml :=
  match v with
  | .mapv kvs => .ok ((kvs.lookup k).getD d)
  | _ => .error "AttributeError"

/-- `scan = policy.get("scan") or {}`. -/
def scan_dict (policy : Yaml) : Except String Yaml := do
  let scanRaw ← yGet policy "scan"
  return if scanRaw.truthy then scanRaw else .mapv []

/-- `_get_scan_config`: the five configuration entries with their
defaults for missing keys. -/
def get_scan_config_y (policy : Yaml) : Except String (List (String × Yaml)) := do
  let scan ← scan_dict policy
  let v1 ← yGetD scan "snippet_chars" (.intv 260)
  let v2 ← yGetD scan "qualifier_window_chars" (.intv 400)
  let v3 ← yGetD scan "proximity_window_chars" (.intv 250)
  let v4 ← yGetD scan "case_insensitive" (.boolv true)
  let v5 ← yGetD scan "upgrade_context_window_chars" (.intv 0)
  return [("snippet_chars", v1), ("qualifier_window_chars", v2),
          ("proximity_window_chars", v3), ("case_insensitive", v4),
          ("upgrade_context_window_chars", v5)]

/-- `(policy.get("scan") or {}).get("require_upgrade_context", True)`
(line 209 of `src/rules.py`). -/
def get_require_upgrade_context (policy : Yaml) : Except String Yaml := do
  let scan ← scan_dict policy
  yGetD scan "require_upgrade_context" (.boolv true)

/-- `rules = policy.get("rules") or []`. -/
def get_rules_y (policy : Yaml) : Except String Yaml := do
  let r ← yGet policy "rules"
  return if r.truthy then r else .listv []

/-! ## Scenario checks (spec §8) -/

def mktRule : Rule :=
  { id := some "MKT_001_GUARANTEED_APPROVAL"
    patterns := some [ .valid (litRe "guaranteed approval".toList) ] }

def acmePolicy : Policy :=
  { company_name_variants := [ "Acme".toList ]
    rules := [ mktRule ] }

example : (run_rules "Acme Bank offers guaranteed approval for everyone.".toList acmePolicy []).map
    (fun f => (f.rule_id, f.match_text)) =
    [("MKT_001_GUARANTEED_APPROVAL", "guaranteed approval".toList)] := by decide

def dqRule : Rule :=
  { mktRule with required_qualifiers_any := some ["disclaimers"] }

def dqPolicy : Policy :=
  { acmePolicy with
    qualifiers := [ ("disclaimers", [ "subject to credit approval".toList ]) ]
    rules := [ dqRule ] }

example :
    run_rules "Acme offers guaranteed approval, subject to credit approval.".toList dqPolicy []
      = [] := by decide

def proxRule : Rule :=
  { id := some "ROLE_001_UPGRADE_IS_BANK"
    proximity := some { anchor_patterns := [ .valid (litRe "Upgrade".toList) ]
                        near_patterns := [ .valid (litRe "bank".toList) ]
                        window_chars := some 100 } }

def upPolicy : Policy :=
  { company_name_variants := [ "Upgrade".toList ]
    rules := [ proxRule ] }

example : (run_rules "Upgrade is a financial technology company, not a bank.".toList upPolicy []).map
    (fun f => (f.rule_id, f.match_text)) =
    [("ROLE_001_UPGRADE_IS_BANK", "Upgrade ... bank".toList)] := by decide

/-! ## Claims about the global topic gate (C1, C7) -/

theorem is_upgrade_related_eq_false (ci : Bool) (text : Str) (variants : List Str)
    (hvar : variants ≠ [])
    (hocc : ∀ p ∈ variants, occursIn ci p text = false) :
    is_upgrade_related ci text variants = false := by
  unfold is_upgrade_related
  split
  · rfl
  · rw [if_neg]
    · simp only [List.any_eq_false]
      intro p hp
      simp [hocc p hp]
    · simp [hvar]

/-- C1: with `require_upgrade_context` on and a nonempty variant list none
of whose phrases occurs in the text, `run_rules` returns no findings,
whatever the policy's rules are (the global topic gate fires before any
per-rule work). -/
theorem run_rules_eq_nil_of_no_variant_mention (text page_url : Str) (policy : Policy)
    (hreq : policy.scan.require_upgrade_context = true)
    (hvar : policy.company_name_variants ≠ [])
    (hocc : ∀ p ∈ policy.company_name_variants,
      occursIn policy.scan.case_insensitive p text = false) :
    run_rules text policy page_url = [] := by
  simp [run_rules, hreq,
    is_upgrade_related_eq_false policy.scan.case_insensitive text _ hvar hocc]

def w1policy : Policy :=
  { company_name_variants := [ "Acme".toList ]
    rules := [ { patterns := some [ .valid (litRe "hello".toList) ] } ] }

/-- Witness for C1: a policy with one rule whose pattern matches the text,
yet no findings because the variant Acme is absent. -/
theorem run_rules_eq_nil_of_no_variant_mention_witness :
    w1policy.scan.require_upgrade_context = true
    ∧ w1policy.company_name_variants ≠ []
    ∧ (∀ p ∈ w1policy.company_name_variants,
        occursIn w1policy.scan.case_insensitive p "hello world".toList = false)
    ∧ run_rules "hello world".toList w1policy [] = [] :=
  ⟨by decide, by decide, by decide,
    run_rules_eq_nil_of_no_variant_mention "hello world".toList [] w1policy
      (by decide) (by decide) (by decide)⟩

/-- C7 (amended): with `require_upgrade_context` on (its default), the
empty text short-circuits at the global gate and yields no findings. -/
theorem run_rules_empty_text_eq_nil (policy : Policy) (page_url : Str)
    (hreq : policy.scan.require_upgrade_context = true) :
    run_rules [] policy page_url = [] := by
  simp [run_rules, is_upgrade_related, hreq]

def w7policy : Policy := { rules := [ mktRule ] }

/-- Witness for C7's amended theorem. -/
theorem run_rules_empty_text_eq_nil_witness :
    w7policy.scan.require_upgrade_context = true ∧ run_rules [] w7policy [] = [] :=
  ⟨by decide, run_rules_empty_text_eq_nil w7policy [] (by decide)⟩

def cx7policy : Policy :=
  { scan := { require_upgrade_context := false }
    rules := [ { patterns := some [ .valid (.star (.chr 'a')) ] } ] }

/-- C7 counterexample: with `require_upgrade_context: false` and the
pattern `a*` (which matches the empty string), evaluating the rules on
the empty text yields one finding, not zero. -/
theorem empty_text_can_yield_finding :
    run_rules [] cx7policy [] ≠ [] ∧ (run_rules [] cx7policy []).length = 1 := by decide

/-- C10: the suppression filter returns a sublist of its input (the
survivors are the identical records, in their input order), and with no
suppressions the input list itself. -/
theorem apply_suppressions_sublist (ci : Bool) (findings : List Finding)
    (suppressions : List Suppression) (page_url : Str) :
    (apply_suppressions ci findings suppressions page_url).Sublist findings
    ∧ apply_suppressions ci findings [] page_url = findings := by
  constructor
  · unfold apply_suppressions
    split
    · exact List.Sublist.refl _
    · exact List.filter_sublist _
  · rfl

/-! ## Claims about the suppression filter (C5) and the per-match gate (C6) -/

theorem opt_present_iff (ci : Bool) (o : Option Str) (hay : Str) :
    (o.getD [] ≠ [] → occursIn ci (o.getD []) hay = true) ↔
      (∀ u, o = some u → u ≠ [] → occursIn ci u hay = true) := by
  cases o <;> simp

theorem suppression_matches_iff (ci : Bool) (f : Finding) (page_url : Str) (s : Suppression) :
    suppression_matches ci f page_url s = true ↔
      s.rule_id = some f.rule_id
      ∧ (∀ u, s.url_contains = some u → u ≠ [] → occursIn ci u page_url = true)
      ∧ (∀ u, s.snippet_contains = some u → u ≠ [] → occursIn ci u f.snippet = true)
      ∧ (∀ u, s.match_contains = some u → u ≠ [] → occursIn ci u f.match_text = true) := by
  rcases s with ⟨rid, uc, sc, mc, rsn⟩
  unfold suppression_matches
  simp only [← opt_present_iff ci]
  cases uc <;> cases sc <;> cases mc <;> split_ifs <;> simp_all

/-- C5: a finding survives the suppression filter exactly when no
suppression both names its rule id and has each of its present
`*_contains` fields occurring in the page URL, the finding's snippet and
the finding's match text respectively; in particular a suppression with
only `rule_id` set (no present optional field) suppresses every finding
of that rule. -/
theorem apply_suppressions_mem_iff (ci : Bool) (findings : List Finding)
    (suppressions : List Suppression) (page_url : Str) (f : Finding) :
    f ∈ apply_suppressions ci findings suppressions page_url ↔
      f ∈ findings ∧ ¬ ∃ s ∈ suppressions,
        s.rule_id = some f.rule_id
        ∧ (∀ u, s.url_contains = some u → u ≠ [] → occursIn ci u page_url = true)
        ∧ (∀ u, s.snippet_contains = some u → u ≠ [] → occursIn ci u f.snippet = true)
        ∧ (∀ u, s.match_contains = some u → u ≠ [] → occursIn ci u f.match_text = true) := by
  unfold apply_suppressions
  split
  · rename_i h
    have he : suppressions = [] := by simpa using h
    subst he
    simp
  · rw [List.mem_filter]
    simp only [Bool.not_eq_true', List.any_eq_false]
    constructor
    · rintro ⟨hf, hall⟩
      refine ⟨hf, ?_⟩
      rintro ⟨s, hs, hP⟩
      exact hall s hs ((suppression_matches_iff ci f page_url s).2 hP)
    · rintro ⟨hf, hne⟩
      refine ⟨hf, fun s hs => ?_⟩
      by_contra hmt
      exact hne ⟨s, hs, (suppression_matches_iff ci f page_url s).1 (by simpa using hmt)⟩

theorem filterMap_gate_eq (ci : Bool) (text : Str) (variants : List Str) (win : Int)
    (hwin : 0 < win) (cands : List Cand) :
    cands.filterMap (add_finding_gate ci text variants true win) =
      (cands.filter (fun c =>
        has_upgrade_near_position ci text ((c.mstart + c.mend) / 2) win variants)).map
        (fun c => c.finding) := by
  induction cands with
  | nil => rfl
  | cons c rest ih =>
    by_cases hn : has_upgrade_near_position ci text ((c.mstart + c.mend) / 2) win variants = true
    · simp [add_finding_gate, hwin, hn, ih]
    · simp [add_finding_gate, hwin, hn, ih]

/-- C6 (amended): when `require_upgrade_context` is on and
`upgrade_context_window_chars` is positive (and the document passes the
global gate), the findings are exactly the candidates of every rule kind
whose match midpoint has a nearby variant mention — every other candidate
is discarded before suppression filtering. -/
theorem near_gate_filters_candidates (text page_url : Str) (policy : Policy)
    (hreq : policy.scan.require_upgrade_context = true)
    (hwin : 0 < policy.scan.upgrade_context_window_chars)
    (hrel : is_upgrade_related policy.scan.case_insensitive text
      policy.company_name_variants = true) :
    run_rules text policy page_url =
      apply_suppressions policy.scan.case_insensitive
        (((run_rules_cands text policy).filter (fun c =>
          has_upgrade_near_position policy.scan.case_insensitive text ((c.mstart + c.mend) / 2)
            policy.scan.upgrade_context_window_chars policy.company_name_variants)).map
          (fun c => c.finding))
        policy.suppressions page_url := by
  simp only [run_rules, hreq, hrel, Bool.not_true, Bool.and_false, Bool.false_eq_true,
    if_false]
  rw [filterMap_gate_eq _ _ _ _ hwin]

def w6policy : Policy :=
  { company_name_variants := [ "b".toList ]
    scan := { upgrade_context_window_chars := 3 }
    rules := [ { patterns := some [ .valid (litRe "a".toList) ] } ] }

/-- Witness for C6's amended theorem at a concrete input. -/
theorem near_gate_filters_candidates_witness :
    w6policy.scan.require_upgrade_context = true
    ∧ 0 < w6policy.scan.upgrade_context_window_chars
    ∧ run_rules "ab".toList w6policy [] =
        apply_suppressions w6policy.scan.case_insensitive
          (((run_rules_cands "ab".toList w6policy).filter (fun c =>
            has_upgrade_near_position w6policy.scan.case_insensitive "ab".toList
              ((c.mstart + c.mend) / 2) w6policy.scan.upgrade_context_window_chars
              w6policy.company_name_variants)).map (fun c => c.finding))
          w6policy.suppressions [] :=
  ⟨by decide, by decide,
    near_gate_filters_candidates "ab".toList [] w6policy (by decide) (by decide) (by decide)⟩

def cx6policy : Policy :=
  { company_name_variants := [ "Acme".toList ]
    scan := { require_upgrade_context := false
              upgrade_context_window_chars := 5 }
    rules := [ { patterns := some [ .valid (litRe "ban".toList) ] } ] }

/-- C6 counterexample: `upgrade_context_window_chars` is positive, the
sole candidate's midpoint has no nearby variant mention, and yet the
finding is kept — the per-match gate is inactive because
`require_upgrade_context` is false. -/
theorem near_gate_inactive_without_require_upgrade :
    0 < cx6policy.scan.upgrade_context_window_chars
    ∧ (run_rules_cands "a ban x".toList cx6policy).map (fun c => (c.mstart + c.mend) / 2) = [3]
    ∧ has_upgrade_near_position cx6policy.scan.case_insensitive "a ban x".toList 3
        cx6policy.scan.upgrade_context_window_chars cx6policy.company_name_variants = false
    ∧ (run_rules "a ban x".toList cx6policy []).length = 1 := by decide

/-! ## Claim about invalid regexes (C9) -/

/-- Remove the pattern strings that fail to compile (`re.error`), keeping
falsy and valid ones. -/
def strip_invalid_patterns (ps : List PatternSrc) : List PatternSrc :=
  ps.filter (fun p =>
    match p with
    | .invalid => false
    | .empty => true
    | .valid _ => true)

/-- Remove the invalid pattern strings from every pattern list of a rule. -/
def strip_invalid_rule (r : Rule) : Rule :=
  { r with
    patterns := r.patterns.map strip_invalid_patterns
    trigger_patterns := r.trigger_patterns.map strip_invalid_patterns
    proximity := r.proximity.map (fun pr =>
      { pr with
        anchor_patterns := strip_invalid_patterns pr.anchor_patterns
        near_patterns := strip_invalid_patterns pr.near_patterns }) }

/-- Remove the invalid pattern strings from every rule of a policy. -/
def strip_invalid_policy (p : Policy) : Policy :=
  { p with rules := p.rules.map strip_invalid_rule }

theorem compile_patterns_strip (ps : List PatternSrc) :
    compile_patterns (strip_invalid_patterns ps) = compile_patterns ps := by
  induction ps with
  | nil => rfl
  | cons p rest ih => cases p <;> simp [strip_invalid_patterns, compile_patterns] at ih ⊢ <;>
      exact ih

theorem mkCand_strip (r : Rule) (mt sn : Str) (a b : Nat) :
    mkCand (strip_invalid_rule r) mt sn a b = mkCand r mt sn a b := rfl

theorem pattern_cands_strip (ci : Bool) (text : Str) (qp : List (String × List Str))
    (sc qw : Int) (r : Rule) :
    pattern_cands ci text qp sc qw (strip_invalid_rule r) = pattern_cands ci text qp sc qw r := by
  have hpat : (strip_invalid_rule r).patterns = r.patterns.map strip_invalid_patterns := rfl
  have hrq : (strip_invalid_rule r).required_qualifiers_any = r.required_qualifiers_any := rfl
  unfold pattern_cands
  rw [hpat, hrq]
  cases hp : r.patterns with
  | none => rfl
  | some l =>
    simp only [Option.map_some, mkCand_strip, Option.getD_some]
    by_cases h0 : l = []
    · subst h0; rfl
    · by_cases hs : strip_invalid_patterns l = []
      · have hc : compile_patterns l = [] := by rw [← compile_patterns_strip, hs]; rfl
        simp [truthyOptList, hs, h0, hc]
      · simp [truthyOptList, hs, h0, compile_patterns_strip]

theorem trigger_cands_strip (ci : Bool) (text : Str) (qp : List (String × List Str))
    (sc qw : Int) (r : Rule) :
    trigger_cands ci text qp sc qw (strip_invalid_rule r) = trigger_cands ci text qp sc qw r := by
  have hpat : (strip_invalid_rule r).trigger_patterns =
      r.trigger_patterns.map strip_invalid_patterns := rfl
  have hrq : (strip_invalid_rule r).required_qualifiers_any = r.required_qualifiers_any := rfl
  unfold trigger_cands
  rw [hpat, hrq]
  cases hp : r.trigger_patterns with
  | none => rfl
  | some l =>
    simp only [Option.map_some, mkCand_strip, Option.getD_some]
    by_cases h0 : l = []
    · subst h0; rfl
    · by_cases hs : strip_invalid_patterns l = []
      · have hc : compile_patterns l = [] := by rw [← compile_patterns_strip, hs]; rfl
        simp [truthyOptList, hs, h0, hc]
      · simp [truthyOptList, hs, h0, compile_patterns_strip]

theorem proximity_cands_strip (ci : Bool) (text : Str) (sc pw : Int) (r : Rule) :
    proximity_cands ci text sc pw (strip_invalid_rule r) = proximity_cands ci text sc pw r := by
  have hpx : (strip_invalid_rule r).proximity = r.proximity.map (fun pr =>
      { pr with
        anchor_patterns := strip_invalid_patterns pr.anchor_patterns
        near_patterns := strip_invalid_patterns pr.near_patterns }) := rfl
  unfold proximity_cands
  rw [hpx]
  cases hp : r.proximity with
  | none => rfl
  | some prox =>
    simp only [Option.map, mkCand_strip, compile_patterns_strip]

theorem rule_cands_strip (ci : Bool) (text : Str) (qp : List (String × List Str))
    (sc qw pw : Int) (r : Rule) :
    rule_cands ci text qp sc qw pw (strip_invalid_rule r) = rule_cands ci text qp sc qw pw r := by
  unfold rule_cands
  rw [pattern_cands_strip, proximity_cands_strip, trigger_cands_strip]

/-- C9: an invalid regex among a rule's `patterns`, `anchor_patterns`,
`near_patterns` or `trigger_patterns` is dropped at compile time and the
evaluation continues with the remaining patterns: compilation, and the
whole (total, exception-free) run, are unchanged when the invalid entries
are removed — a malformed pattern degrades to contributing no findings. -/
theorem run_rules_ignores_invalid_patterns :
    (∀ ps : List PatternSrc,
      compile_patterns (strip_invalid_patterns ps) = compile_patterns ps)
    ∧ ∀ (text page_url : Str) (policy : Policy),
        run_rules text (strip_invalid_policy policy) page_url = run_rules text policy page_url := by
  refine ⟨compile_patterns_strip, fun text page_url policy => ?_⟩
  have hscan : (strip_invalid_policy policy).scan = policy.scan := rfl
  have hvar : (strip_invalid_policy policy).company_name_variants =
      policy.company_name_variants := rfl
  have hsup : (strip_invalid_policy policy).suppressions = policy.suppressions := rfl
  have hq : (strip_invalid_policy policy).qualifiers = policy.qualifiers := rfl
  have hcands : run_rules_cands text (strip_invalid_policy policy) =
      run_rules_cands text policy := by
    unfold run_rules_cands
    rw [hscan, hq]
    have hrules : (strip_invalid_policy policy).rules = policy.rules.map strip_invalid_rule := rfl
    rw [hrules, List.flatMap_map]
    exact List.flatMap_congr (fun r _ => rule_cands_strip _ _ _ _ _ _ r)
  unfold run_rules
  rw [hscan, hvar, hsup, hcands]

/-! ## Claim about suppression merging (C4) -/

theorem dedup_new_key_not_seen (S : List Suppression) :
    ∀ (seen : List (Option String × Option Str × Option Str × Option Str))
      (x : Suppression), x ∈ dedup_new seen S → supp_key x ∉ seen := by
  induction S with
  | nil => intro seen x hx; simp [dedup_new] at hx
  | cons s rest ih =>
    intro seen x hx
    simp only [dedup_new] at hx
    by_cases hk : supp_key s ∈ seen
    · rw [if_pos hk] at hx
      exact ih seen x hx
    · rw [if_neg hk] at hx
      rcases List.mem_cons.1 hx with rfl | hx2
      · exact hk
      · intro hmem
        exact ih (supp_key s :: seen) x hx2 (List.mem_cons_of_mem _ hmem)

theorem dedup_new_eq_nil (S : List Suppression) :
    ∀ seen : List (Option String × Option Str × Option Str × Option Str),
      (∀ s ∈ S, supp_key s ∈ seen) → dedup_new seen S = [] := by
  induction S with
  | nil => intro seen _; rfl
  | cons s rest ih =>
    intro seen hall
    simp only [dedup_new]
    rw [if_pos (hall s (List.mem_cons_self s rest))]
    exact ih seen (fun x hx => hall x (List.mem_cons_of_mem _ hx))

theorem dedup_new_covers (S : List Suppression) :
    ∀ (seen : List (Option String × Option Str × Option Str × Option Str))
      (s : Suppression), s ∈ S →
      supp_key s ∈ seen ∨ supp_key s ∈ (dedup_new seen S).map supp_key := by
  induction S with
  | nil => intro seen s hs; cases hs
  | cons a rest ih =>
    intro seen s hs
    simp only [dedup_new]
    by_cases hk : supp_key a ∈ seen
    · rw [if_pos hk]
      rcases List.mem_cons.1 hs with rfl | hs2
      · exact Or.inl hk
      · exact ih seen s hs2
    · rw [if_neg hk]
      rcases List.mem_cons.1 hs with rfl | hs2
      · exact Or.inr (by simp)
      · rcases ih (supp_key a :: seen) s hs2 with h | h
        · rcases List.mem_cons.1 h with heq | h2
          · exact Or.inr (by simp [heq])
          · exact Or.inl h2
        · exact Or.inr (by simp [h])

/-- C4 (amended): repeated application of the suppression merge adds
nothing — every new suppression whose dedup key (with missing fields
keyed as the absent value, not as the empty string) already occurs among
the existing suppressions or earlier in the batch is dropped, so merging
the same batch twice leaves the suppression list of the first merge. -/
theorem merge_suppressions_idempotent :
    (∀ existing new_suppressions : List Suppression,
      merge_suppressions (merge_suppressions existing new_suppressions) new_suppressions =
        merge_suppressions existing new_suppressions)
    ∧ ∀ (seen : List (Option String × Option Str × Option Str × Option Str))
        (S : List Suppression) (x : Suppression),
        x ∈ dedup_new seen S → supp_key x ∉ seen := by
  constructor
  · intro existing news
    unfold merge_suppressions
    rw [List.append_assoc]
    congr 1
    have h2 : dedup_new ((existing ++ dedup_new (existing.map supp_key) news).map supp_key)
        news = [] := by
      apply dedup_new_eq_nil
      intro s hs
      rw [List.map_append, List.mem_append]
      exact dedup_new_covers news (existing.map supp_key) s hs
    rw [h2]
    simp
  · exact fun seen S x => dedup_new_key_not_seen S seen x

/-- Modelled from the spec's words for claim C4: the dedup key "with
missing fields treated as empty string".  Compare `supp_key`, the key the
source computes. -/
def supp_key_spec (s : Suppression) : String × Str × Str × Str :=
  ((s.rule_id).getD "", s.snippet_contains.getD [], s.match_contains.getD [],
    s.url_contains.getD [])

def cx4existing : Suppression := { rule_id := some "R" }

def cx4new : Suppression := { rule_id := some "R", snippet_contains := some [] }

/-- C4 counterexample: a new suppression whose key-with-missing-as-empty
already occurs among the existing suppressions is nevertheless appended,
because the source keys a missing field as Python `None`, which differs
from an explicit empty string. -/
theorem merge_suppressions_distinguishes_missing_from_empty :
    supp_key_spec cx4existing = supp_key_spec cx4new
    ∧ merge_suppressions [cx4existing] [cx4new] = [cx4existing, cx4new] := by decide

/-! ## Claim about proximity rules (C2) -/

theorem prox_scan_anchors_eq_find (ci : Bool) (text : Str) (window_chars : Int)
    (nPats : List Regex) (aMs : List (Nat × Nat)) :
    prox_scan_anchors ci text window_chars nPats aMs =
      (aMs.find? (fun m =>
        (first_near_text ci nPats
          (window_around text ((m.1 + m.2) / 2) window_chars)).isSome)).bind
        (fun m =>
          (first_near_text ci nPats (window_around text ((m.1 + m.2) / 2) window_chars)).map
            (fun t => (m, t))) := by
  induction aMs with
  | nil => rfl
  | cons m rest ih =>
    simp only [prox_scan_anchors]
    cases hf : first_near_text ci nPats (window_around text ((m.1 + m.2) / 2) window_chars) with
    | some t => simp [List.find?, hf]
    | none => simp [List.find?, hf, ih]

theorem flatMap_length_le_of_bounded {α β : Type} (l : List α) (f : α → List β)
    (h : ∀ x, (f x).length ≤ 1) : (l.flatMap f).length ≤ l.length := by
  induction l with
  | nil => simp
  | cons a rest ih =>
    rw [List.flatMap_cons, List.length_append, List.length_cons]
    have := h a
    omega

theorem proximity_cands_length_le (ci : Bool) (text : Str) (sc pw : Int) (r : Rule) :
    (proximity_cands ci text sc pw r).length ≤
      (match r.proximity with
       | none => 0
       | some prox => (compile_patterns prox.anchor_patterns).length) := by
  unfold proximity_cands
  cases r.proximity with
  | none => simp
  | some prox =>
    apply flatMap_length_le_of_bounded
    intro a_pat
    cases prox_scan_anchors ci text (pyOrInt prox.window_chars pw)
        (compile_patterns prox.near_patterns) (finditer ci a_pat text) with
    | none => simp
    | some p => rcases p with ⟨m, t⟩; simp

/-- C2 (amended): for a proximity rule, each anchor pattern's matches are
scanned in order and the scan stops at the first anchor match whose
window (of the rule's or the global width around the anchor midpoint)
contains a near-pattern match, pairing it with the first matching
near-pattern's first match text; so each anchor pattern contributes at
most one finding (none when no anchor occurrence has a nearby match), and
the remaining matches of that anchor pattern are skipped. -/
theorem proximity_emits_once_per_anchor_pattern :
    (∀ (ci : Bool) (text : Str) (window_chars : Int) (nPats : List Regex)
        (aMs : List (Nat × Nat)),
      prox_scan_anchors ci text window_chars nPats aMs =
        (aMs.find? (fun m =>
          (first_near_text ci nPats
            (window_around text ((m.1 + m.2) / 2) window_chars)).isSome)).bind
          (fun m =>
            (first_near_text ci nPats (window_around text ((m.1 + m.2) / 2) window_chars)).map
              (fun t => (m, t))))
    ∧ ∀ (ci : Bool) (text : Str) (sc pw : Int) (r : Rule),
        (proximity_cands ci text sc pw r).length ≤
          (match r.proximity with
           | none => 0
           | some prox => (compile_patterns prox.anchor_patterns).length) :=
  ⟨prox_scan_anchors_eq_find, proximity_cands_length_le⟩

def cx2policy : Policy :=
  { rules := [ { proximity := some { anchor_patterns := [ .valid (litRe "ab".toList) ]
                                     near_patterns := [ .valid (litRe "cd".toList) ]
                                     window_chars := some 10 } } ] }

/-- C2 counterexample: both matches of the anchor pattern have a
near-pattern match inside their window, yet only one finding is emitted —
after the first hit the source breaks out of the anchor-match loop and
moves to the next anchor pattern, not the next anchor match. -/
theorem proximity_second_anchor_match_skipped :
    ((finditer true (litRe "ab".toList) "ab cd ab cd".toList).filter (fun m =>
      (first_near_text true [litRe "cd".toList]
        (window_around "ab cd ab cd".toList ((m.1 + m.2) / 2) 10)).isSome)).length = 2
    ∧ (run_rules "ab cd ab cd".toList cx2policy []).length = 1 := by decide

/-! ## Claim about snippets (C3) -/

theorem pySlice_length (t : Str) (a b : Nat) :
    (pySlice t a b).length = min (b - a) (t.length - a) := by
  simp [pySlice]

theorem drop_take_infix {α : Type} (X : List α) (n m : Nat) : (X.drop n).take m <:+: X :=
  (List.take_prefix m (X.drop n)).isInfix.trans (List.drop_suffix n X).isInfix

theorem pySlice_eq_take_drop (t : Str) (a b s e : Nat) (hs : s ≤ a) (hb : b ≤ e) :
    pySlice t a b = ((pySlice t s e).drop (a - s)).take (b - a) := by
  unfold pySlice
  rw [List.drop_take, List.drop_drop]
  have h1 : s + (a - s) = a := by omega
  rw [h1, List.take_take]
  congr 1
  omega

theorem pySlice_infix (t : Str) (a b s e : Nat) (hs : s ≤ a) (hb : b ≤ e) :
    pySlice t a b <:+: pySlice t s e := by
  rw [pySlice_eq_take_drop t a b s e hs hb]
  exact drop_take_infix _ _ _

theorem snippet_around_eq (text : Str) (start endp : Nat) (sc : Int)
    (ht : text.isEmpty = false) (hsc : 0 < sc) :
    snippet_around text start endp sc =
      (if 0 < max 0 ((start : Int) - sc / 2) then ['…'] else [])
        ++ pySlice text (max 0 ((start : Int) - sc / 2)).toNat
            (min (text.length : Int) (max 0 ((start : Int) - sc / 2) + sc)).toNat
        ++ (if min (text.length : Int) (max 0 ((start : Int) - sc / 2) + sc) <
              (text.length : Int) then ['…'] else []) := by
  have hguard : (text.isEmpty || decide (sc ≤ 0)) = false := by
    simp [ht, not_le.2 hsc]
  simp only [snippet_around, hguard, Bool.false_eq_true, if_false]
  have he1 : (endp : Int) + (sc - ((endp : Int) - max 0 ((start : Int) - sc / 2))) =
      max 0 ((start : Int) - sc / 2) + sc := by ring
  rw [he1, ite_self]

/-- C3 (amended): for a positive `snippet_chars` and a match span inside
the text, the snippet's length is at most `snippet_chars + 2` (the two
ellipsis markers), and whenever the match's length is at most
`snippet_chars - snippet_chars / 2` (the half of the budget not reserved
for left context) the snippet contains the full literal matched
substring. -/
theorem snippet_length_and_containment (text : Str) (start endp : Nat) (snippet_chars : Int)
    (hsc : 0 < snippet_chars) (hspan : start ≤ endp) (hend : endp ≤ text.length) :
    ((snippet_around text start endp snippet_chars).length : Int) ≤ snippet_chars + 2
    ∧ (((endp : Int) - start ≤ snippet_chars - snippet_chars / 2) →
        pySlice text start endp <:+: snippet_around text start endp snippet_chars) := by
  by_cases ht : text.isEmpty
  · have htn : text = [] := by simpa using ht
    subst htn
    have h0 : start = 0 := by simpa using hspan.trans hend
    have h1 : endp = 0 := by simpa using hend
    subst h0; subst h1
    constructor
    · simp [snippet_around]
      omega
    · intro _
      simp [snippet_around, pySlice]
  · have ht2 : text.isEmpty = false := by simpa using ht
    rw [snippet_around_eq text start endp snippet_chars ht2 hsc]
    set sI : Int := max 0 ((start : Int) - snippet_chars / 2) with hsI
    set eI : Int := min (text.length : Int) (sI + snippet_chars) with heI
    have hs0 : 0 ≤ sI := le_max_left _ _
    have hsge : (start : Int) - snippet_chars / 2 ≤ sI := le_max_right _ _
    have hsstart : sI ≤ (start : Int) := by
      have hdiv : 0 ≤ snippet_chars / 2 := by positivity
      rw [hsI]
      apply max_le (by positivity)
      omega
    have heln : eI ≤ (text.length : Int) := min_le_left _ _
    have hesc : eI ≤ sI + snippet_chars := min_le_right _ _
    have hlen2 : (pySlice text sI.toNat eI.toNat).length ≤ snippet_chars.toNat := by
      rw [pySlice_length]
      omega
    constructor
    · have hh1 : (if 0 < sI then ['…'] else []).length ≤ 1 := by split <;> simp
      have hh2 : (if eI < (text.length : Int) then ['…'] else []).length ≤ 1 := by
        split <;> simp
      simp only [List.length_append]
      omega
    · intro hfit
      have hdivle : snippet_chars / 2 ≤ snippet_chars := by omega
      have hsn : sI.toNat ≤ start := by omega
      have hen : endp ≤ eI.toNat := by omega
      have hmid : pySlice text start endp <:+: pySlice text sI.toNat eI.toNat :=
        pySlice_infix text start endp sI.toNat eI.toNat hsn hen
      refine hmid.trans ?_
      exact List.infix_append _ _ _

/-- Witness for C3's amended theorem at a concrete input. -/
theorem snippet_length_and_containment_witness :
    (0 : Int) < 4 ∧ 2 ≤ 3 ∧ 3 ≤ "abcdef".toList.length
    ∧ (((snippet_around "abcdef".toList 2 3 4).length : Int) ≤ 4 + 2
       ∧ (((3 : Int) - 2 ≤ 4 - 4 / 2) →
           pySlice "abcdef".toList 2 3 <:+: snippet_around "abcdef".toList 2 3 4)) :=
  ⟨by decide, by decide, by decide,
    snippet_length_and_containment "abcdef".toList 2 3 4 (by decide) (by decide) (by decide)⟩

def cx3text : Str := "abcdefghijKLMNopqrst".toList

/-- C3 counterexample: a match of length 4 = `snippet_chars` is
truncated — the snippet window starts `snippet_chars / 2` before the
match and keeps only `snippet_chars` characters, so the match's tail
falls outside and the snippet does not contain the matched substring. -/
theorem snippet_may_truncate_long_match :
    ((14 : Int) - 10 ≤ 4)
    ∧ snippet_around cx3text 10 14 4 = "…ijKL…".toList
    ∧ ¬ pySlice cx3text 10 14 <:+: snippet_around cx3text 10 14 4 := by
  refine ⟨by decide, by decide, by decide⟩

/-! ## Claim about policy loading (C8) -/

/-- The scan configuration `_get_scan_config` returns for an empty
document: every field at its default. -/
def default_scan_config_y : List (String × Yaml) :=
  [("snippet_chars", .intv 260), ("qualifier_window_chars", .intv 400),
   ("proximity_window_chars", .intv 250), ("case_insensitive", .boolv true),
   ("upgrade_context_window_chars", .intv 0)]

/-- C8 (amended): an empty or missing document yields the all-defaults
configuration (`snippet_chars`=260, `qualifier_window_chars`=400,
`proximity_window_chars`=250, `case_insensitive`=true,
`upgrade_context_window_chars`=0, `require_upgrade_context`=true) and no
rules; any absent scan key takes its supplied default; and loading fails
(attribute error) for a document that parses to a truthy value that is
not a mapping.  (A falsy non-mapping document is silently replaced by the
empty mapping — see the counterexample.) -/
theorem scan_config_defaults :
    get_scan_config_y (load_policy none) = .ok default_scan_config_y
    ∧ get_require_upgrade_context (load_policy none) = .ok (.boolv true)
    ∧ get_rules_y (load_policy none) = .ok (.listv [])
    ∧ (∀ (skvs : List (String × Yaml)) (k : String) (d : Yaml),
        skvs.lookup k = none → yGetD (.mapv skvs) k d = .ok d)
    ∧ (∀ kvs : List (String × Yaml), kvs.lookup "scan" = none →
        get_scan_config_y (.mapv kvs) = .ok default_scan_config_y
        ∧ get_require_upgrade_context (.mapv kvs) = .ok (.boolv true))
    ∧ ∀ v : Yaml, v.truthy = true → v.isMap = false →
        get_scan_config_y v = .error "AttributeError" := by
  refine ⟨rfl, rfl, rfl, ?_, ?_, ?_⟩
  · intro skvs k d h
    simp [yGetD, h]
  · intro kvs h
    have hscan : scan_dict (.mapv kvs) = .ok (.mapv []) := by
      simp [scan_dict, yGet, h, Yaml.truthy]
    constructor
    · simp [get_scan_config_y, hscan, yGetD]
      rfl
    · simp only [get_require_upgrade_context, hscan]
      rfl
  · intro v h1 h2
    cases v with
    | nullv => simp [Yaml.truthy] at h1
    | boolv b => rfl
    | intv n => rfl
    | strv s => rfl
    | listv xs => rfl
    | mapv kvs => simp [Yaml.isMap] at h2

/-- C8 counterexample: the YAML document `[]` parses to a list — not a
mapping — yet policy loading does not fail: `yaml.safe_load(f) or {}`
replaces any falsy document with the empty dict, and the all-defaults
configuration is returned. -/
theorem falsy_non_mapping_yields_defaults :
    (Yaml.listv []).isMap = false
    ∧ get_scan_config_y (load_policy (some (.listv []))) = .ok default_scan_config_y
    ∧ get_require_upgrade_context (load_policy (some (.listv []))) = .ok (.boolv true)
    ∧ get_rules_y (load_policy (some (.listv []))) = .ok (.listv []) :=
  ⟨rfl, rfl, rfl, rfl⟩
